import Mathlib

/-!
Verification development for the quick-cuts text video generator
(`src/app.py`).  The program has three core functions —
`make_text_frame` (greedy word wrap + centered text layout into an RGB
buffer), `zoom_frame_pil` (upscale-then-center-crop), `build_video`
(uniform-duration clip assembly) — plus a UI handler that splits the
script into non-blank trimmed lines and validates non-emptiness.

External collaborators (PIL text metrics `draw.textbbox`, glyph
rasterization `draw.text`, the LANCZOS resampler, and the per-frame
`random.uniform(1.00, 1.06)` draw) are abstracted as parameters bundled
in the structure `Ext`: the embedding is parametric in them, exactly as
the program is parametric in the font that happens to load (the
`try/except` font fallback only changes which metric function is in
effect, never raises).  Machine floats (`zoom_factor`, `total_duration`)
are modelled as rationals; Python `//` (floor division) is `Int.fdiv`;
Python `int()` on a nonnegative value is the floor.
-/

namespace Videogen

/-- A pixel: three 8-bit color channels (values as naturals). -/
abbrev Rgb := Nat × Nat × Nat

/-- A PIL image: dimensions plus pixel contents.  `draw.text` mutates
pixels in place and can never change the dimensions, which the model
reflects by letting the abstract draw operation act on `pix` only. -/
structure Img where
  width : Nat
  height : Nat
  pix : Nat → Nat → Rgb

/-- Shape of `np.array(img)` for an RGB PIL image: `(height, width, 3)`. -/
def Img.shape (im : Img) : Nat × Nat × Nat := (im.height, im.width, 3)

/-- PIL `img.crop((left, top, right, bottom))`: the result has width
`right - left` and height `bottom - top`; pixels outside the source are
filled with black. -/
def Img.crop (im : Img) (left top right bottom : Int) : Img where
  width := (right - left).toNat
  height := (bottom - top).toNat
  pix := fun x y =>
    let sx := left + x
    let sy := top + y
    if 0 ≤ sx ∧ sx < (im.width : Int) ∧ 0 ≤ sy ∧ sy < (im.height : Int) then
      im.pix sx.toNat sy.toNat
    else (0, 0, 0)

/-- The external collaborators of the core, kept abstract:
`tw s` / `th s` are the width `bbox[2]-bbox[0]` and height
`bbox[3]-bbox[1]` of `draw.textbbox((0,0), s, font=font)` for whichever
font loaded; `drawText` is the pixel effect of `draw.text((x,y), s, ...)`;
`resample` gives the pixel contents of `img.resize((new_w, new_h),
resample=Image.LANCZOS)`; `zoomOf i` is the value that
`random.uniform(1.00, 1.06)` returned for the `i`-th line. -/
structure Ext where
  tw : String → Nat
  th : String → Nat
  drawText : Int × Int → String → (Nat → Nat → Rgb) → (Nat → Nat → Rgb)
  resample : Img → Nat → Nat → (Nat → Nat → Rgb)
  zoomOf : Nat → ℚ

/-- Splitting a character list on whitespace, accumulating the current
token in reverse: the recursion behind `pySplit`. -/
def pySplitAux : List Char → List Char → List String
  | [], acc => if acc = [] then [] else [String.mk acc.reverse]
  | c :: cs, acc =>
    if c.isWhitespace then
      (if acc = [] then [] else [String.mk acc.reverse]) ++ pySplitAux cs []
    else pySplitAux cs (c :: acc)

/-- Python `text.split()`: split on runs of whitespace, discarding empty
pieces (so no leading/trailing empty tokens and every token is non-empty
and whitespace-free). -/
def pySplit (text : String) : List String :=
  pySplitAux text.data []

/-- The space-separated join of a list of words.  The program builds the
candidate line as `(current + " " + word).strip()`: since the words come
from `text.split()` they are non-empty and whitespace-free, so the
candidate string for word list `ws` is exactly `joinWords ws`, and
`.strip()` only ever removes the leading space of the first append
(`current == ""`). -/
def joinWords : List String → String
  | [] => ""
  | [w] => w
  | w :: ws => w ++ " " ++ joinWords ws

/-- The word-wrap loop of `make_text_frame` (lines 30–40 of
`src/app.py`), with each committed line kept as its list of words
(`joinWords` recovers the committed string).  State `current` is the
candidate line; a word is appended while the candidate's measured width
stays `≤ max_width`, otherwise the candidate is committed (`if current:`
guards the empty candidate) and the word starts a new line alone; the
final candidate is committed at the end. -/
def wrapLoop (tw : String → Nat) (maxW : Int) :
    List String → List String → List (List String)
  | [], current => if current = [] then [] else [current]
  | w :: ws, current =>
    if (tw (joinWords (current ++ [w])) : Int) ≤ maxW then
      wrapLoop tw maxW ws (current ++ [w])
    else if current = [] then
      wrapLoop tw maxW ws [w]
    else
      current :: wrapLoop tw maxW ws [w]

/-- Word wrap from the empty initial candidate, as in `make_text_frame`. -/
def wrapWords (tw : String → Nat) (maxW : Int) (words : List String) :
    List (List String) :=
  wrapLoop tw maxW words []

/-- Modelled from the spec: one step of the greedy wrap as §4.1 step 2
words it — extend the candidate with the next word (space-separated) if
its measured width fits, else commit the current line (a line exists only
when non-empty, per the data model) and start a new line with that word
alone. -/
def specStep (tw : String → Nat) (maxW : Int)
    (st : List (List String) × List String) (w : String) :
    List (List String) × List String :=
  let cand := st.2 ++ [w]
  if (tw (joinWords cand) : Int) ≤ maxW then
    (st.1, cand)
  else
    (st.1 ++ (if st.2 = [] then [] else [st.2]), [w])

/-- Modelled from the spec: the greedy wrap of §4.1 step 2 as a left
fold over the words, committing the final candidate if non-empty. -/
def wrapSpec (tw : String → Nat) (maxW : Int) (words : List String) :
    List (List String) :=
  let st := words.foldl (specStep tw maxW) ([], [])
  st.1 ++ (if st.2 = [] then [] else [st.2])

/-- The total height of the text block (`src/app.py` line 48):
`sum(line_heights) + (len(lines) - 1) * line_gap`, over `Int` since
Python evaluates `(0 - 1) * line_gap = -line_gap` for an empty list. -/
def totalTextH (th : String → Nat) (line_gap : Nat) (lines : List String) : Int :=
  ((lines.map th).sum : Int) + ((lines.length : Int) - 1) * line_gap

/-- The drawing loop of `make_text_frame` (lines 51–58): for each line,
`x = (w - line_w) // 2` and `y` advances by `line_h + line_gap`; Python
`//` is floor division, `Int.fdiv`.  Returns the `draw.text` calls, each
as `(line, x, y)`. -/
def layoutLoop (tw th : String → Nat) (w line_gap : Nat) (y : Int) :
    List String → List (String × Int × Int)
  | [] => []
  | line :: rest =>
    (line, Int.fdiv ((w : Int) - tw line) 2, y) ::
      layoutLoop tw th w line_gap (y + th line + line_gap) rest

/-- The committed lines of `make_text_frame` as strings:
`max_width = w - 2 * margin` over Python ints. -/
def frameLines (E : Ext) (text : String) (w margin : Nat) : List String :=
  (wrapWords E.tw ((w : Int) - 2 * margin) (pySplit text)).map joinWords

/-- All `draw.text` calls of `make_text_frame`, starting from
`y = (h - total_text_h) // 2`. -/
def frameLayout (E : Ext) (text : String) (w h margin line_gap : Nat) :
    List (String × Int × Int) :=
  let lines := frameLines E text w margin
  layoutLoop E.tw E.th w line_gap
    (Int.fdiv ((h : Int) - totalTextH E.th line_gap lines) 2) lines

/-- `make_text_frame(text, w, h, font_size, margin, line_gap)`
(`src/app.py` lines 10–60): a black `w × h` RGB canvas with each laid-out
line drawn at its computed position, returned as an array of shape
`(h, w, 3)`.  `font_size` selects the font whose metrics `E.tw`/`E.th`
abstract (the `try/except` fallback only changes which font that is). -/
def make_text_frame (E : Ext) (text : String) (w : Nat := 1080)
    (h : Nat := 1920) (font_size : Nat := 95) (margin : Nat := 80)
    (line_gap : Nat := 20) : Img where
  width := w
  height := h
  pix := (frameLayout E text w h margin line_gap).foldl
    (fun p c => E.drawText (c.2.1, c.2.2) c.1 p) (fun _ _ => (0, 0, 0))

/-- `zoom_frame_pil(frame_np, zoom_factor, w, h)` (`src/app.py` lines
64–80): identity for `zoom_factor ≤ 1.0`; otherwise resize to
`(int(w * zoom_factor), int(h * zoom_factor))` (Python `int()` of a
nonnegative value is the floor) and center-crop back with margins
`(new_w - w) // 2`, `(new_h - h) // 2`. -/
def zoom_frame_pil (E : Ext) (frame_np : Img) (zoom_factor : ℚ) (w h : Nat) :
    Img :=
  if zoom_factor ≤ 1 then frame_np
  else
    let new_w := (⌊(w : ℚ) * zoom_factor⌋).toNat
    let new_h := (⌊(h : ℚ) * zoom_factor⌋).toNat
    let resized : Img := ⟨new_w, new_h, E.resample frame_np new_w new_h⟩
    let left := Int.fdiv ((new_w : Int) - w) 2
    let top := Int.fdiv ((new_h : Int) - h) 2
    resized.crop left top (left + w) (top + h)

/-- A moviepy still clip: a frame held for a duration
(`ImageClip(frame).set_duration(clip_len)`). -/
structure Clip where
  frame : Img
  duration : ℚ

/-- Total duration of `concatenate_videoclips(clips, method="compose")`:
the sum of the clip durations (hard cuts, no overlap). -/
def videoDuration (clips : List Clip) : ℚ :=
  (clips.map Clip.duration).sum

/-- `build_video(lines, total_duration, w, h, font_size, fps)`
(`src/app.py` lines 84–99): `clip_len = total_duration / len(lines)`
raises `ZeroDivisionError` on an empty list (modelled as `none`);
otherwise each line is rendered, zoomed by that iteration's
`random.uniform(1.00, 1.06)` draw (`E.zoomOf i` for the `i`-th line),
and held for `clip_len`; the clips are kept in input order.  `fps` is
only used later by `write_videofile`. -/
def build_video (E : Ext) (lines : List String) (total_duration : ℚ)
    (w h font_size fps : Nat) : Option (List Clip) :=
  if lines.length = 0 then none
  else
    let clip_len := total_duration / (lines.length : ℚ)
    some <| lines.enum.map fun it =>
      let frame := make_text_frame E it.2 w h font_size
      let frame2 := zoom_frame_pil E frame (E.zoomOf it.1) w h
      { frame := frame2, duration := clip_len }

/-- Splitting a character list at every newline, accumulating the
current piece in reverse: the recursion behind `splitLines`. -/
def splitLinesAux : List Char → List Char → List String
  | [], acc => [String.mk acc.reverse]
  | c :: cs, acc =>
    if c = '\n' then String.mk acc.reverse :: splitLinesAux cs []
    else splitLinesAux cs (c :: acc)

/-- Python `script.split("\n")`: split at every newline, keeping empty
pieces (so the empty script gives `[""]`). -/
def splitLines (script : String) : List String :=
  splitLinesAux script.data []

/-- Python `l.strip()`: remove leading and trailing whitespace. -/
def pyStrip (l : String) : String :=
  String.mk
    (((l.data.dropWhile Char.isWhitespace).reverse.dropWhile
      Char.isWhitespace).reverse)

/-- The line splitting of the "Generate MP4" handler (line 132):
`[l.strip() for l in script.split("\n") if l.strip()]` — a stripped line
is kept exactly when it is non-empty. -/
def parseScript (script : String) : List String :=
  (splitLines script).filterMap fun l =>
    if pyStrip l = "" then none else some (pyStrip l)

/-- Outcome of the handler: a reported validation error (`st.error` +
`st.stop`, no rendering and no file), an uncaught Python exception, or a
completed video whose clips are written and offered for download. -/
inductive UiResult where
  | errorMsg : String → UiResult
  | crash : String → UiResult
  | done : List Clip → UiResult

/-- The "Generate MP4" button handler (`src/app.py` lines 131–144):
split the script, reject an empty result with "Enter at least 1 line."
before any rendering, otherwise build and write the video. -/
def generateHandler (E : Ext) (script : String) (total_duration : ℚ)
    (w h font_size fps : Nat) : UiResult :=
  let lines := parseScript script
  if lines.isEmpty then UiResult.errorMsg "Enter at least 1 line."
  else
    match build_video E lines total_duration w h font_size fps with
    | none => UiResult.crash "ZeroDivisionError"
    | some clips => UiResult.done clips

/-- A concrete instantiation of the external collaborators, used by the
witness theorems: fixed-width 10px glyph metrics, 20px line height,
draws and resampling that keep pixels, zoom factor 1.03 for every
frame. -/
def sampleExt : Ext where
  tw := fun s => 10 * s.length
  th := fun _ => 20
  drawText := fun _ _ p => p
  resample := fun im _ _ => im.pix
  zoomOf := fun _ => 103 / 100

/-- A concrete 4 × 3 black frame for witness theorems. -/
def sampleImg : Img := ⟨4, 3, fun _ _ => (0, 0, 0)⟩

/-! ## Lemmas about the word wrap -/

lemma joinWords_append (cur : List String) (w : String) :
    joinWords (cur ++ [w]) =
      if cur = [] then w else joinWords cur ++ " " ++ w := by
  induction cur with
  | nil => simp [joinWords]
  | cons a rest ih =>
    cases rest with
    | nil => simp [joinWords]
    | cons b r =>
      simp only [List.cons_append, joinWords, List.append_eq] at *
      rw [ih]
      simp [String.append_assoc]

lemma wrapLoop_flatten (tw : String → Nat) (maxW : Int) :
    ∀ ws cur : List String, (wrapLoop tw maxW ws cur).flatten = cur ++ ws := by
  intro ws
  induction ws with
  | nil =>
    intro cur
    by_cases h : cur = [] <;> simp [wrapLoop, h]
  | cons w ws ih =>
    intro cur
    by_cases hfit : (tw (joinWords (cur ++ [w])) : Int) ≤ maxW
    · simp [wrapLoop, hfit, ih]
    · by_cases hc : cur = [] <;> simp [wrapLoop, hfit, hc, ih]

lemma wrapLoop_fits_or_single (tw : String → Nat) (maxW : Int) :
    ∀ ws cur : List String,
      (cur = [] ∨ (tw (joinWords cur) : Int) ≤ maxW ∨ ∃ u, cur = [u]) →
      ∀ l ∈ wrapLoop tw maxW ws cur,
        (tw (joinWords l) : Int) ≤ maxW ∨ ∃ u, l = [u] := by
  intro ws
  induction ws with
  | nil =>
    intro cur hcur l hl
    by_cases h : cur = []
    · simp [wrapLoop, h] at hl
    · simp only [wrapLoop, if_neg h, List.mem_singleton] at hl
      subst hl
      rcases hcur with h' | h'
      · exact absurd h' h
      · exact h'
  | cons w ws ih =>
    intro cur hcur l hl
    by_cases hfit : (tw (joinWords (cur ++ [w])) : Int) ≤ maxW
    · rw [wrapLoop, if_pos hfit] at hl
      exact ih (cur ++ [w]) (Or.inr (Or.inl hfit)) l hl
    · by_cases hc : cur = []
      · rw [wrapLoop, if_neg hfit, if_pos hc] at hl
        exact ih [w] (Or.inr (Or.inr ⟨w, rfl⟩)) l hl
      · rw [wrapLoop, if_neg hfit, if_neg hc] at hl
        rcases List.mem_cons.mp hl with rfl | hl'
        · rcases hcur with h' | h' | h'
          · exact absurd h' hc
          · exact Or.inl h'
          · exact Or.inr h'
        · exact ih [w] (Or.inr (Or.inr ⟨w, rfl⟩)) l hl'

lemma oversize_test_fails (tw : String → Nat) (maxW : Int)
    (Hsub : ∀ s u : String, tw u ≤ tw (s ++ " " ++ u))
    (cur : List String) (w : String) (hw : maxW < (tw w : Int)) :
    maxW < (tw (joinWords (cur ++ [w])) : Int) := by
  rw [joinWords_append]
  by_cases h : cur = []
  · simpa [h] using hw
  · rw [if_neg h]
    calc maxW < (tw w : Int) := hw
      _ ≤ (tw (joinWords cur ++ " " ++ w) : Int) := by
          exact_mod_cast Hsub (joinWords cur) w

lemma single_oversized_stays (tw : String → Nat) (maxW : Int)
    (Hini : ∀ s u : String, tw s ≤ tw (s ++ " " ++ u))
    (w : String) (hw : maxW < (tw w : Int)) :
    ∀ ws : List String, [w] ∈ wrapLoop tw maxW ws [w] := by
  intro ws
  cases ws with
  | nil => simp [wrapLoop]
  | cons v vs =>
    have hfail : ¬ (tw (joinWords ([w] ++ [v])) : Int) ≤ maxW := by
      have hjw : joinWords ([w] ++ [v]) = w ++ " " ++ v := by simp [joinWords]
      rw [hjw, not_le]
      calc maxW < (tw w : Int) := hw
        _ ≤ (tw (w ++ " " ++ v) : Int) := by exact_mod_cast Hini w v
    rw [wrapLoop, if_neg hfail, if_neg (by simp)]
    exact List.mem_cons_self _ _

lemma oversized_alone (tw : String → Nat) (maxW : Int)
    (Hsub : ∀ s u : String, tw u ≤ tw (s ++ " " ++ u))
    (Hini : ∀ s u : String, tw s ≤ tw (s ++ " " ++ u)) :
    ∀ (ws cur : List String) (w : String), w ∈ ws → maxW < (tw w : Int) →
      [w] ∈ wrapLoop tw maxW ws cur := by
  intro ws
  induction ws with
  | nil => intro cur w hmem; simp at hmem
  | cons v vs ih =>
    intro cur w hmem hw
    rcases List.mem_cons.mp hmem with rfl | hmem'
    · have hfail := not_le.mpr (oversize_test_fails tw maxW Hsub cur w hw)
      rw [wrapLoop, if_neg hfail]
      by_cases hc : cur = []
      · rw [if_pos hc]
        exact single_oversized_stays tw maxW Hini w hw vs
      · rw [if_neg hc]
        exact List.mem_cons_of_mem _ (single_oversized_stays tw maxW Hini w hw vs)
    · by_cases hfit : (tw (joinWords (cur ++ [v])) : Int) ≤ maxW
      · rw [wrapLoop, if_pos hfit]
        exact ih (cur ++ [v]) w hmem' hw
      · by_cases hc : cur = []
        · rw [wrapLoop, if_neg hfit, if_pos hc]
          exact ih [v] w hmem' hw
        · rw [wrapLoop, if_neg hfit, if_neg hc]
          exact List.mem_cons_of_mem _ (ih [v] w hmem' hw)

lemma wrapLoop_eq_fold (tw : String → Nat) (maxW : Int) :
    ∀ (ws : List String) (done : List (List String)) (cur : List String),
      done ++ wrapLoop tw maxW ws cur =
        (List.foldl (specStep tw maxW) (done, cur) ws).1 ++
          (if (List.foldl (specStep tw maxW) (done, cur) ws).2 = [] then []
           else [(List.foldl (specStep tw maxW) (done, cur) ws).2]) := by
  intro ws
  induction ws with
  | nil =>
    intro done cur
    by_cases h : cur = [] <;> simp [wrapLoop, h]
  | cons w ws ih =>
    intro done cur
    simp only [List.foldl_cons]
    by_cases hfit : (tw (joinWords (cur ++ [w])) : Int) ≤ maxW
    · have hstep : specStep tw maxW (done, cur) w = (done, cur ++ [w]) := by
        simp [specStep, hfit]
      rw [hstep, wrapLoop, if_pos hfit]
      exact ih done (cur ++ [w])
    · by_cases hc : cur = []
      · have hstep : specStep tw maxW (done, cur) w = (done, [w]) := by
          simp [specStep, hfit, hc]
        rw [hstep, wrapLoop, if_neg hfit, if_pos hc]
        exact ih done [w]
      · have hstep : specStep tw maxW (done, cur) w = (done ++ [cur], [w]) := by
          simp [specStep, hfit, hc]
        rw [hstep, wrapLoop, if_neg hfit, if_neg hc]
        calc done ++ (cur :: wrapLoop tw maxW ws [w])
            = (done ++ [cur]) ++ wrapLoop tw maxW ws [w] := by simp
          _ = _ := ih (done ++ [cur]) [w]

lemma wrapWords_eq_wrapSpec (tw : String → Nat) (maxW : Int)
    (words : List String) :
    wrapWords tw maxW words = wrapSpec tw maxW words := by
  have h := wrapLoop_eq_fold tw maxW words [] []
  simpa [wrapWords, wrapSpec] using h

/-! ## Claim theorems about the word wrap -/

/-- C1: with `2*margin < w`, every line committed by `make_text_frame`'s
word wrap either has rendered width at most `w - 2*margin` or consists
of a single word (so only a word whose own rendered width exceeds the
bound can make a line exceed it); and every word wider than the bound
still appears in the output lines, alone and unsplit.  The hypotheses
`Hsub`/`Hini` say the measured width never shrinks when a space-separated
word is appended on either side, which holds of rendered text width. -/
theorem wrap_width_bound (E : Ext) (text : String) (w margin : Nat)
    (hm : 2 * margin < w)
    (Hsub : ∀ s u : String, E.tw u ≤ E.tw (s ++ " " ++ u))
    (Hini : ∀ s u : String, E.tw s ≤ E.tw (s ++ " " ++ u)) :
    (∀ l ∈ wrapWords E.tw ((w : Int) - 2 * margin) (pySplit text),
        (E.tw (joinWords l) : Int) ≤ (w : Int) - 2 * margin ∨ ∃ u, l = [u]) ∧
    (∀ u ∈ pySplit text, ((w : Int) - 2 * margin) < (E.tw u : Int) →
        [u] ∈ wrapWords E.tw ((w : Int) - 2 * margin) (pySplit text)) := by
  refine ⟨fun l hl => ?_, fun u hu hou => ?_⟩
  · exact wrapLoop_fits_or_single E.tw _ (pySplit text) [] (Or.inl rfl) l hl
  · exact oversized_alone E.tw _ Hsub Hini (pySplit text) [] u hu hou

/-- C1 witness: with 10px-per-character metrics, width 100 and margin 10
(`max_width = 80`), wrapping "Hello world verylongword" commits lines
that each fit or are single words, and the oversized word
"verylongword" (120px) appears alone. -/
theorem wrap_width_bound_witness :
    (∀ l ∈ wrapWords sampleExt.tw ((100 : Int) - 2 * 10)
        (pySplit "Hello world verylongword"),
        (sampleExt.tw (joinWords l) : Int) ≤ (100 : Int) - 2 * 10 ∨
          ∃ u, l = [u]) ∧
    (∀ u ∈ pySplit "Hello world verylongword",
        ((100 : Int) - 2 * 10) < (sampleExt.tw u : Int) →
          [u] ∈ wrapWords sampleExt.tw ((100 : Int) - 2 * 10)
            (pySplit "Hello world verylongword")) :=
  wrap_width_bound sampleExt "Hello world verylongword" 100 10
    (by norm_num)
    (fun s u => by simp only [sampleExt, String.length_append]; omega)
    (fun s u => by simp only [sampleExt, String.length_append]; omega)

/-- C2: `make_text_frame` wraps greedily, exactly as the spec words it:
folding over the words in order, the candidate line is extended by the
next word while its measured width stays within `w - 2*margin`,
otherwise the (non-empty) current line is committed and the word starts
a new line alone (`wrapSpec` is that description verbatim); and a single
word wider than the available width is placed alone on its own line,
with no hyphenation or truncation. -/
theorem wrap_greedy_spec (E : Ext) (text : String) (w margin : Nat)
    (Hsub : ∀ s u : String, E.tw u ≤ E.tw (s ++ " " ++ u))
    (Hini : ∀ s u : String, E.tw s ≤ E.tw (s ++ " " ++ u)) :
    wrapWords E.tw ((w : Int) - 2 * margin) (pySplit text) =
      wrapSpec E.tw ((w : Int) - 2 * margin) (pySplit text) ∧
    (∀ u ∈ pySplit text, ((w : Int) - 2 * margin) < (E.tw u : Int) →
        [u] ∈ wrapWords E.tw ((w : Int) - 2 * margin) (pySplit text)) := by
  refine ⟨wrapWords_eq_wrapSpec _ _ _, fun u hu hou => ?_⟩
  exact oversized_alone E.tw _ Hsub Hini (pySplit text) [] u hu hou

/-- C2 witness: the greedy wrap coincides with the spec's fold on
"tiny words but averylongword here" at width 100, margin 10, and the
oversized word lands alone. -/
theorem wrap_greedy_spec_witness :
    wrapWords sampleExt.tw ((100 : Int) - 2 * 10)
        (pySplit "tiny words but averylongword here") =
      wrapSpec sampleExt.tw ((100 : Int) - 2 * 10)
        (pySplit "tiny words but averylongword here") ∧
    (∀ u ∈ pySplit "tiny words but averylongword here",
        ((100 : Int) - 2 * 10) < (sampleExt.tw u : Int) →
          [u] ∈ wrapWords sampleExt.tw ((100 : Int) - 2 * 10)
            (pySplit "tiny words but averylongword here")) :=
  wrap_greedy_spec sampleExt "tiny words but averylongword here" 100 10
    (fun s u => by simp only [sampleExt, String.length_append]; omega)
    (fun s u => by simp only [sampleExt, String.length_append]; omega)

/-- C9: the word wrap of `make_text_frame` preserves the words exactly —
concatenating the words of the committed lines, in order, gives back
exactly the words of the input text (`text.split()`): no word is
dropped, duplicated, or reordered. -/
theorem wrap_preserves_words (E : Ext) (text : String) (w margin : Nat) :
    (wrapWords E.tw ((w : Int) - 2 * margin) (pySplit text)).flatten =
      pySplit text := by
  simpa using wrapLoop_flatten E.tw ((w : Int) - 2 * margin) (pySplit text) []

/-! ## Lemmas about the layout -/

lemma layoutLoop_length (tw th : String → Nat) (w line_gap : Nat) :
    ∀ (ls : List String) (y : Int),
      (layoutLoop tw th w line_gap y ls).length = ls.length := by
  intro ls
  induction ls with
  | nil => intro y; simp [layoutLoop]
  | cons l rest ih => intro y; simp [layoutLoop, ih]

lemma layoutLoop_get (tw th : String → Nat) (w line_gap : Nat) :
    ∀ (ls : List String) (y : Int) (i : Nat) (hi : i < ls.length)
      (hi' : i < (layoutLoop tw th w line_gap y ls).length),
      (layoutLoop tw th w line_gap y ls).get ⟨i, hi'⟩ =
        (ls.get ⟨i, hi⟩,
         Int.fdiv ((w : Int) - tw (ls.get ⟨i, hi⟩)) 2,
         y + ((ls.take i).map fun l => (th l : Int) + line_gap).sum) := by
  intro ls
  induction ls with
  | nil => intro y i hi; simp at hi
  | cons l rest ih =>
    intro y i hi hi'
    cases i with
    | zero => simp [layoutLoop]
    | succ j =>
      have hj : j < rest.length := Nat.lt_of_succ_lt_succ hi
      have hj' : j < (layoutLoop tw th w line_gap
          (y + th l + line_gap) rest).length := by
        rw [layoutLoop_length]; exact hj
      have := ih (y + th l + line_gap) j hj hj'
      simp only [layoutLoop, List.get_cons_succ, List.take_succ_cons,
        List.map_cons, List.sum_cons] at this ⊢
      rw [this]
      simp only [Prod.mk.injEq]
      exact ⟨trivial, trivial, by ring⟩

lemma take_map_sum_succ (f : String → Int) (ls : List String) (i : Nat)
    (hi : i < ls.length) :
    ((ls.take (i + 1)).map f).sum =
      ((ls.take i).map f).sum + f (ls.get ⟨i, hi⟩) := by
  rw [List.map_take, List.map_take,
    List.sum_take_succ (ls.map f) i (by simpa using hi)]
  congr 1
  simp [List.get_eq_getElem]

/-! ## Claim theorems about the frame renderer -/

/-- C7: `make_text_frame` always returns a full-size buffer of shape
exactly `(h, w, 3)`, for every input text (single-word and
empty-after-wrap included) and all parameters: the canvas is created at
`(w, h)` and drawing only changes pixels. -/
theorem frame_shape (E : Ext) (text : String)
    (w h font_size margin line_gap : Nat) :
    (make_text_frame E text w h font_size margin line_gap).shape =
        (h, w, 3) ∧
    (make_text_frame E text w h font_size margin line_gap).width = w ∧
    (make_text_frame E text w h font_size margin line_gap).height = h :=
  ⟨rfl, rfl, rfl⟩

/-- C8: the layout of `make_text_frame`: the block height is
`sum(line_heights) + line_gap * (len(lines) - 1)`; the first line is
drawn at `y = (h - total_text_h) // 2`; each line is drawn at
`x = (w - line_w) // 2`; and `y` advances by `line_h + line_gap` from
one line to the next. -/
theorem layout_centering (E : Ext) (text : String)
    (w h margin line_gap : Nat) :
    totalTextH E.th line_gap (frameLines E text w margin) =
      (((frameLines E text w margin).map E.th).sum : Int) +
        line_gap * (((frameLines E text w margin).length : Int) - 1) ∧
    (frameLayout E text w h margin line_gap).length =
      (frameLines E text w margin).length ∧
    (∀ (i : Nat) (hi : i < (frameLines E text w margin).length)
        (hi' : i < (frameLayout E text w h margin line_gap).length),
      ((frameLayout E text w h margin line_gap).get ⟨i, hi'⟩).1 =
          (frameLines E text w margin).get ⟨i, hi⟩ ∧
        ((frameLayout E text w h margin line_gap).get ⟨i, hi'⟩).2.1 =
          Int.fdiv ((w : Int) -
            E.tw ((frameLines E text w margin).get ⟨i, hi⟩)) 2) ∧
    (∀ h0 : 0 < (frameLayout E text w h margin line_gap).length,
      ((frameLayout E text w h margin line_gap).get ⟨0, h0⟩).2.2 =
        Int.fdiv ((h : Int) -
          totalTextH E.th line_gap (frameLines E text w margin)) 2) ∧
    (∀ (i : Nat) (hi : i < (frameLines E text w margin).length)
        (h1 : i + 1 < (frameLayout E text w h margin line_gap).length)
        (h2 : i < (frameLayout E text w h margin line_gap).length),
      ((frameLayout E text w h margin line_gap).get ⟨i + 1, h1⟩).2.2 =
        ((frameLayout E text w h margin line_gap).get ⟨i, h2⟩).2.2 +
          E.th ((frameLines E text w margin).get ⟨i, hi⟩) + line_gap) := by
  have hlen0 : ∀ y, (layoutLoop E.tw E.th w line_gap y
      (frameLines E text w margin)).length =
      (frameLines E text w margin).length :=
    fun y => layoutLoop_length E.tw E.th w line_gap _ y
  refine ⟨by simp only [totalTextH]; ring, hlen0 _, fun i hi hi' => ?_,
    ?_, ?_⟩
  · have hget := layoutLoop_get E.tw E.th w line_gap
      (frameLines E text w margin)
      (Int.fdiv ((h : Int) -
        totalTextH E.th line_gap (frameLines E text w margin)) 2) i hi hi'
    constructor
    · simp only [frameLayout]
      rw [hget]
    · simp only [frameLayout]
      rw [hget]
  · intro h0
    have hi : 0 < (frameLines E text w margin).length := by
      rw [← hlen0 _]; exact h0
    have hget := layoutLoop_get E.tw E.th w line_gap
      (frameLines E text w margin)
      (Int.fdiv ((h : Int) -
        totalTextH E.th line_gap (frameLines E text w margin)) 2) 0 hi h0
    simp only [frameLayout]
    rw [hget]
    simp
  · intro i hi h1 h2
    have hi1 : i + 1 < (frameLines E text w margin).length := by
      rw [← hlen0 _]; exact h1
    have hgetS := layoutLoop_get E.tw E.th w line_gap
      (frameLines E text w margin)
      (Int.fdiv ((h : Int) -
        totalTextH E.th line_gap (frameLines E text w margin)) 2)
      (i + 1) hi1 h1
    have hget := layoutLoop_get E.tw E.th w line_gap
      (frameLines E text w margin)
      (Int.fdiv ((h : Int) -
        totalTextH E.th line_gap (frameLines E text w margin)) 2) i hi h2
    simp only [frameLayout]
    rw [hgetS, hget]
    simp only
    rw [take_map_sum_succ _ _ i hi]
    ring

/-- C8 witness: for 10px-per-character, 20px-high metrics on
"Hello world verylongword" with `w = 100`, `h = 200`, `margin = 10`,
`line_gap = 20` (three committed lines, block height 100), the first
line is drawn at `y = (200 - 100) // 2 = 50` and the second 40 below. -/
theorem layout_centering_witness :
    ((frameLayout sampleExt "Hello world verylongword" 100 200 10 20).get
        ⟨0, by decide⟩).2.2 = 50 ∧
    ((frameLayout sampleExt "Hello world verylongword" 100 200 10 20).get
        ⟨1, by decide⟩).2.2 = 90 :=
  ⟨Eq.trans ((layout_centering sampleExt "Hello world verylongword"
      100 200 10 20).2.2.2.1 (by decide)) (by decide),
   Eq.trans ((layout_centering sampleExt "Hello world verylongword"
      100 200 10 20).2.2.2.2 0 (by decide) (by decide) (by decide))
     (by decide)⟩

/-! ## Claim theorems about the zoom -/

/-- C4: for every frame and every `zoom_factor ≤ 1.0`, `zoom_frame_pil`
returns the frame unchanged — in particular `zoom_factor == 1.0` is a
byte-identical no-op. -/
theorem zoom_identity (E : Ext) (frame : Img) (zoom_factor : ℚ)
    (w h : Nat) (hz : zoom_factor ≤ 1) :
    zoom_frame_pil E frame zoom_factor w h = frame := by
  simp only [zoom_frame_pil]
  rw [if_pos hz]

/-- C4 witness: zoom factor exactly 1.0 on a concrete 4 × 3 frame. -/
theorem zoom_identity_witness :
    zoom_frame_pil sampleExt sampleImg 1 4 3 = sampleImg :=
  zoom_identity sampleExt sampleImg 1 4 3 (by norm_num)

/-- C3: for a frame of shape `(h, w, 3)` and any `zoom_factor` in
`[1.0, 1.06]`, `zoom_frame_pil` returns a buffer of shape exactly
`(h, w, 3)`; and when `zoom_factor > 1.0` it is exactly the center crop
of the frame resampled to `(int(w * zoom_factor), int(h * zoom_factor))`,
with integer-floor margins `(new_w - w) // 2` and `(new_h - h) // 2`
removed from each side. -/
theorem zoom_crop_shape (E : Ext) (frame : Img) (zoom_factor : ℚ)
    (w h : Nat) (hw : frame.width = w) (hh : frame.height = h)
    (h1 : 1 ≤ zoom_factor) (h2 : zoom_factor ≤ 106 / 100) :
    (zoom_frame_pil E frame zoom_factor w h).shape = (h, w, 3) ∧
    (1 < zoom_factor →
      zoom_frame_pil E frame zoom_factor w h =
        Img.crop
          ⟨(⌊(w : ℚ) * zoom_factor⌋).toNat, (⌊(h : ℚ) * zoom_factor⌋).toNat,
           E.resample frame (⌊(w : ℚ) * zoom_factor⌋).toNat
             (⌊(h : ℚ) * zoom_factor⌋).toNat⟩
          (Int.fdiv (((⌊(w : ℚ) * zoom_factor⌋).toNat : Int) - w) 2)
          (Int.fdiv (((⌊(h : ℚ) * zoom_factor⌋).toNat : Int) - h) 2)
          (Int.fdiv (((⌊(w : ℚ) * zoom_factor⌋).toNat : Int) - w) 2 + w)
          (Int.fdiv (((⌊(h : ℚ) * zoom_factor⌋).toNat : Int) - h) 2 + h)) := by
  by_cases hz : zoom_factor ≤ 1
  · have hid : zoom_frame_pil E frame zoom_factor w h = frame := by
      simp only [zoom_frame_pil]
      rw [if_pos hz]
    refine ⟨?_, fun hlt => absurd hz (not_le.mpr hlt)⟩
    rw [hid, Img.shape, hw, hh]
  · have heq : zoom_frame_pil E frame zoom_factor w h =
        Img.crop
          ⟨(⌊(w : ℚ) * zoom_factor⌋).toNat, (⌊(h : ℚ) * zoom_factor⌋).toNat,
           E.resample frame (⌊(w : ℚ) * zoom_factor⌋).toNat
             (⌊(h : ℚ) * zoom_factor⌋).toNat⟩
          (Int.fdiv (((⌊(w : ℚ) * zoom_factor⌋).toNat : Int) - w) 2)
          (Int.fdiv (((⌊(h : ℚ) * zoom_factor⌋).toNat : Int) - h) 2)
          (Int.fdiv (((⌊(w : ℚ) * zoom_factor⌋).toNat : Int) - w) 2 + w)
          (Int.fdiv (((⌊(h : ℚ) * zoom_factor⌋).toNat : Int) - h) 2 + h) := by
      simp only [zoom_frame_pil]
      rw [if_neg hz]
    refine ⟨?_, fun _ => heq⟩
    rw [heq]
    simp only [Img.shape, Img.crop, Prod.mk.injEq]
    exact ⟨by omega, by omega, trivial⟩

/-- C3 witness: zoom factor 1.03 on the concrete 4 × 3 frame — the
output shape is `(3, 4, 3)`, and the crop equation holds with
`new_w = ⌊4 * 1.03⌋ = 4`, `new_h = ⌊3 * 1.03⌋ = 3`. -/
theorem zoom_crop_shape_witness :
    (zoom_frame_pil sampleExt sampleImg (103 / 100) 4 3).shape =
        (3, 4, 3) ∧
    (1 < (103 / 100 : ℚ) →
      zoom_frame_pil sampleExt sampleImg (103 / 100) 4 3 =
        Img.crop
          ⟨(⌊(4 : ℚ) * (103 / 100)⌋).toNat, (⌊(3 : ℚ) * (103 / 100)⌋).toNat,
           sampleExt.resample sampleImg (⌊(4 : ℚ) * (103 / 100)⌋).toNat
             (⌊(3 : ℚ) * (103 / 100)⌋).toNat⟩
          (Int.fdiv (((⌊(4 : ℚ) * (103 / 100)⌋).toNat : Int) - 4) 2)
          (Int.fdiv (((⌊(3 : ℚ) * (103 / 100)⌋).toNat : Int) - 3) 2)
          (Int.fdiv (((⌊(4 : ℚ) * (103 / 100)⌋).toNat : Int) - 4) 2 + 4)
          (Int.fdiv (((⌊(3 : ℚ) * (103 / 100)⌋).toNat : Int) - 3) 2 + 3)) :=
  zoom_crop_shape sampleExt sampleImg (103 / 100) 4 3 rfl rfl
    (by norm_num) (by norm_num)

/-! ## Claim theorems about the clip assembly -/

/-- C5: for a non-empty list of lines, `build_video` succeeds, gives
every clip the same duration `total_duration / len(lines)` (a uniform
split, independent of the text length), keeps the clips in input order
with hard cuts (the `i`-th clip holds the rendered-then-zoomed `i`-th
line), and the composed stream's total duration is exactly
`total_duration`. -/
theorem build_video_uniform (E : Ext) (lines : List String)
    (total_duration : ℚ) (w h font_size fps : Nat) (hne : lines ≠ []) :
    ∃ cs, build_video E lines total_duration w h font_size fps = some cs ∧
      cs.length = lines.length ∧
      (∀ c ∈ cs, c.duration = total_duration / (lines.length : ℚ)) ∧
      videoDuration cs = total_duration ∧
      (∀ (i : Nat) (hi : i < cs.length) (hi' : i < lines.length),
        cs.get ⟨i, hi⟩ =
          { frame := zoom_frame_pil E
              (make_text_frame E (lines.get ⟨i, hi'⟩) w h font_size)
              (E.zoomOf i) w h,
            duration := total_duration / (lines.length : ℚ) }) := by
  have hlen : lines.length ≠ 0 := by simpa [List.length_eq_zero] using hne
  have hq : (lines.length : ℚ) ≠ 0 := Nat.cast_ne_zero.mpr hlen
  refine ⟨lines.enum.map fun it =>
      { frame := zoom_frame_pil E (make_text_frame E it.2 w h font_size)
          (E.zoomOf it.1) w h,
        duration := total_duration / (lines.length : ℚ) },
    ?_, ?_, ?_, ?_, ?_⟩
  · simp only [build_video]
    rw [if_neg hlen]
  · simp [List.enum_length]
  · intro c hc
    rcases List.mem_map.mp hc with ⟨it, -, rfl⟩
    rfl
  · simp only [videoDuration, List.map_map]
    have hconst : (Clip.duration ∘ fun it : Nat × String =>
        ({ frame := zoom_frame_pil E (make_text_frame E it.2 w h font_size)
            (E.zoomOf it.1) w h,
           duration := total_duration / (lines.length : ℚ) } : Clip)) =
        fun _ => total_duration / (lines.length : ℚ) := rfl
    rw [hconst, List.map_const', List.sum_replicate, List.enum_length,
      nsmul_eq_mul, mul_comm, div_mul_cancel₀ _ hq]
  · intro i hi hi'
    simp [List.get_eq_getElem, List.getElem_map, List.getElem_enum]

/-- C5 witness: two lines with total duration 10 — the build succeeds,
both clips last `10 / 2 = 5`, the total duration is 10, and the clips
follow the lines in order. -/
theorem build_video_uniform_witness :
    ∃ cs, build_video sampleExt ["a", "b"] 10 20 30 12 24 = some cs ∧
      cs.length = (["a", "b"] : List String).length ∧
      (∀ c ∈ cs,
        c.duration = 10 / (((["a", "b"] : List String).length : Nat) : ℚ)) ∧
      videoDuration cs = 10 ∧
      (∀ (i : Nat) (hi : i < cs.length)
          (hi' : i < (["a", "b"] : List String).length),
        cs.get ⟨i, hi⟩ =
          { frame := zoom_frame_pil sampleExt
              (make_text_frame sampleExt
                ((["a", "b"] : List String).get ⟨i, hi'⟩) 20 30 12)
              (sampleExt.zoomOf i) 20 30,
            duration := 10 / (((["a", "b"] : List String).length : Nat) : ℚ) }) :=
  build_video_uniform sampleExt ["a", "b"] 10 20 30 12 24 (by simp)

/-! ## Claim theorems about the handler -/

/-- C6: the script is split on newlines into stripped lines with blanks
discarded (every parsed line is non-empty and is the strip of some raw
line); on an empty or all-blank script the handler reports
"Enter at least 1 line." and halts before any rendering or file output;
otherwise it proceeds with at least one line to a completed video. -/
theorem script_validation (E : Ext) (script : String) (total_duration : ℚ)
    (w h font_size fps : Nat) :
    (∀ l ∈ parseScript script,
        l ≠ "" ∧ ∃ r ∈ splitLines script, l = pyStrip r) ∧
    (parseScript script = [] →
      generateHandler E script total_duration w h font_size fps =
        UiResult.errorMsg "Enter at least 1 line.") ∧
    (parseScript script ≠ [] →
      ∃ cs, generateHandler E script total_duration w h font_size fps =
        UiResult.done cs) := by
  refine ⟨?_, ?_, ?_⟩
  · intro l hl
    simp only [parseScript, List.mem_filterMap] at hl
    obtain ⟨r, hr, hsome⟩ := hl
    by_cases hb : pyStrip r = ""
    · rw [if_pos hb] at hsome
      exact absurd hsome (by simp)
    · rw [if_neg hb] at hsome
      obtain rfl := Option.some.inj hsome
      exact ⟨hb, r, hr, rfl⟩
  · intro he
    simp [generateHandler, he]
  · intro hne
    have hlen : (parseScript script).length ≠ 0 := by
      simpa [List.length_eq_zero] using hne
    refine ⟨(parseScript script).enum.map fun it =>
            { frame := zoom_frame_pil E
                (make_text_frame E it.2 w h font_size) (E.zoomOf it.1) w h,
              duration :=
                total_duration / ((parseScript script).length : ℚ) }, ?_⟩
    simp only [generateHandler]
    rw [if_neg (by simpa [List.isEmpty_iff] using hne)]
    have hb : build_video E (parseScript script) total_duration w h
        font_size fps =
        some ((parseScript script).enum.map fun it =>
          { frame := zoom_frame_pil E
              (make_text_frame E it.2 w h font_size) (E.zoomOf it.1) w h,
            duration :=
              total_duration / ((parseScript script).length : ℚ) }) := by
      simp only [build_video]
      rw [if_neg hlen]
    rw [hb]

/-- C6 witness: the all-blank script "  \n \t" is rejected with the
validation message before any rendering. -/
theorem script_validation_witness :
    generateHandler sampleExt "  \n \t" 10 1080 1920 95 30 =
      UiResult.errorMsg "Enter at least 1 line." :=
  (script_validation sampleExt "  \n \t" 10 1080 1920 95 30).2.1 (by decide)

/-- C10: under the validation guard the division
`clip_len = total_duration / len(lines)` never divides by zero — for a
non-empty parse `build_video` succeeds, and no run of the handler can
end in an uncaught `ZeroDivisionError`. -/
theorem no_zero_division (E : Ext) (script : String) (total_duration : ℚ)
    (w h font_size fps : Nat) :
    (parseScript script ≠ [] →
      ∃ cs, build_video E (parseScript script) total_duration w h font_size
        fps = some cs) ∧
    (∀ m : String,
      generateHandler E script total_duration w h font_size fps ≠
        UiResult.crash m) := by
  constructor
  · intro hne
    have hlen : (parseScript script).length ≠ 0 := by
      simpa [List.length_eq_zero] using hne
    refine ⟨(parseScript script).enum.map fun it =>
            { frame := zoom_frame_pil E
                (make_text_frame E it.2 w h font_size) (E.zoomOf it.1) w h,
              duration :=
                total_duration / ((parseScript script).length : ℚ) }, ?_⟩
    simp only [build_video]
    rw [if_neg hlen]
  · intro m
    by_cases he : parseScript script = []
    · simp [generateHandler, he]
    · have hlen : (parseScript script).length ≠ 0 := by
        simpa [List.length_eq_zero] using he
      simp only [generateHandler]
      rw [if_neg (by simpa [List.isEmpty_iff] using he)]
      have hb : build_video E (parseScript script) total_duration w h
          font_size fps =
          some ((parseScript script).enum.map fun it =>
            { frame := zoom_frame_pil E
                (make_text_frame E it.2 w h font_size) (E.zoomOf it.1) w h,
              duration :=
                total_duration / ((parseScript script).length : ℚ) }) := by
        simp only [build_video]
        rw [if_neg hlen]
      rw [hb]
      exact fun hcon => UiResult.noConfusion hcon

/-- C10 witness: the one-line script "hi" passes validation and
`build_video` succeeds on its parse. -/
theorem no_zero_division_witness :
    ∃ cs, build_video sampleExt (parseScript "hi") 10 20 30 12 24 =
      some cs :=
  (no_zero_division sampleExt "hi" 10 20 30 12 24).1 (by decide)

end Videogen
